import Mathlib

/-!
Shallow embedding of the dragon (xanny) HTTP routing and middleware core:
the route entry and its builder operations (`httpRouting.ts`), the
middleware resolver (`middleware.ts`) and the per-request dispatcher
(`application.ts`, `Application.match` / `handleHttpRequest`).

Conventions of the embedding:
* paths and string patterns are `List Char` (the raw request target
  `req.url`, query string included, is what `HttpRequest.path()` returns);
* HTTP verbs are the `RequestMethod` enum of `httpRouting.ts`;
* a middleware function is represented by its identity (`id`) and the
  signal it returns (`MwResult`): `next` is the explicit
  `MiddlewareState.Next` sentinel, `cancel` is `MiddlewareState.Cancel`,
  `other` stands for any other returned value (e.g. `undefined`);
* a terminal handler is represented by its identity, `Option Nat`
  (`none` is the no-op handler the constructors install);
* regular-expression patterns are modelled by the family actually used by
  the repository: a literal part, one named capture group over a character
  class repeated one or more times, and an optional end anchor
  (`/lit(?<name>[c]+)/` or `/lit(?<name>[c]+)$/`), with JavaScript
  leftmost-then-greedy search semantics;
* the static global middleware list (`HttpRouting.globalMiddlewares()`) is
  passed to the dispatcher explicitly as `globals`.
-/

namespace Dragon

/-- `RequestMethod` from `httpRouting.ts`. -/
inductive RequestMethod
  | GET | POST | PUT | DELETE | PATCH | OPTIONS | HEAD
deriving DecidableEq

/-- The value a middleware returns, as the resolver classifies it:
the explicit `MiddlewareState.Next` sentinel, `MiddlewareState.Cancel`,
or any other value (the resolver treats it like a cancellation). -/
inductive MwResult
  | next | cancel | other
deriving DecidableEq

/-- One middleware function: its identity and the signal it returns. -/
structure Middleware where
  id : Nat
  result : MwResult
deriving DecidableEq

/-- `MiddlewareGroups` from `middleware.ts`: a named group of middleware. -/
structure MiddlewareGroups where
  name : String
  handlers : List Middleware
deriving DecidableEq

/-- The regex-pattern family the repository uses for routes: a literal,
then one named capture group `(?<groupName>[cls]+)`, then optionally the
`$` end anchor. -/
structure NamedGroupRegex where
  lit : List Char
  groupName : String
  cls : Char → Bool
  anchorEnd : Bool

/-- A route pattern: a literal path string or a regular expression
(`path: string | RegExp`). -/
inductive RoutePattern
  | str (s : List Char)
  | regex (r : NamedGroupRegex)

/-- Try to match the regex at the start of `s` (one position of the
engine's search); on success return the capture of the named group.
The group's `+` is greedy; with the end anchor the whole remainder must
belong to the class. -/
def matchAt (r : NamedGroupRegex) (s : List Char) : Option (List Char) :=
  if r.lit = s.take r.lit.length then
    let rest := s.drop r.lit.length
    if r.anchorEnd then
      if rest ≠ [] ∧ rest.all r.cls = true then some rest else none
    else
      let run := rest.takeWhile r.cls
      if run ≠ [] then some run else none
  else none

/-- JavaScript `exec`/`test` search: try every start position from the
left, return the first success's capture of the named group. -/
def execSearch (r : NamedGroupRegex) : List Char → Option (List Char)
  | [] => matchAt r []
  | c :: rest =>
    match matchAt r (c :: rest) with
    | some g => some g
    | none => execSearch r rest

/-- Whether `c` is matched by `.` in a JavaScript regex without the `s`
flag: any character except a line terminator. -/
def isRegexDot (c : Char) : Bool :=
  decide (¬ (c = '\n' ∨ c = '\r' ∨ c = '\u2028' ∨ c = '\u2029'))

/-- `path.replace(/\?.+/i, "")` from `hasPath`: remove the leftmost
occurrence of a `'?'` followed by one or more non-line-terminator
characters, together with that run.  A trailing bare `'?'` (or one
followed only by a line terminator) is kept. -/
def stripQuery : List Char → List Char
  | [] => []
  | c :: rest =>
    if c = '?' then
      match rest with
      | [] => ['?']
      | d :: _ =>
        if isRegexDot d then rest.drop ((rest.takeWhile isRegexDot).length)
        else '?' :: stripQuery rest
    else c :: stripQuery rest

/-- The route entry of `httpRouting.ts` (the `HttpRouting` class): pattern,
accepted methods, terminal handler, name, per-route middleware and
middleware groups.  The class initializers give the defaults. -/
structure HttpRouting where
  path : RoutePattern
  methods : List RequestMethod
  action : Option Nat
  name : String := "<anonymous>"
  middleware : List Middleware := []
  middlewareGroups : List MiddlewareGroups := []

/-- The route `Application.routes()` creates: `new HttpRouting("/", [],
async () => {})`. -/
def emptyRoute : HttpRouting :=
  { path := RoutePattern.str ['/'], methods := [], action := none }

/-- A route entry holding just a literal pattern (fresh entry as the
constructor builds it). -/
def mkStrRoute (pat : List Char) : HttpRouting :=
  { path := RoutePattern.str pat, methods := [], action := none }

/-- A route entry with a regex pattern and every configurable field. -/
def mkRegexRoute (re : NamedGroupRegex) (ms : List RequestMethod)
    (a : Option Nat) (nm : String) (mw : List Middleware)
    (gs : List MiddlewareGroups) : HttpRouting :=
  { path := RoutePattern.regex re, methods := ms, action := a,
    name := nm, middleware := mw, middlewareGroups := gs }

/-- The methods a `withMethods(...methods)` call appends: the arguments,
with `HEAD` pushed onto them when they include `GET` but not `HEAD`
(the check inspects only this call's arguments). -/
def normMethods (ms : List RequestMethod) : List RequestMethod :=
  if RequestMethod.GET ∈ ms ∧ RequestMethod.HEAD ∉ ms then
    ms ++ [RequestMethod.HEAD]
  else ms

/-- `withMethods(...methods)`: `this._methods = [...this._methods,
...methods]` after the conditional `methods.push(HEAD)`. -/
def HttpRouting.withMethods (ms : List RequestMethod) (r : HttpRouting) :
    HttpRouting :=
  { r with methods := r.methods ++ normMethods ms }

/-- `withMiddleware(middleware)`: appends to the per-route chain. -/
def HttpRouting.withMiddleware (m : Middleware) (r : HttpRouting) :
    HttpRouting :=
  { r with middleware := r.middleware ++ [m] }

/-- `withName(name)`: sets the label. -/
def HttpRouting.withName (n : String) (r : HttpRouting) : HttpRouting :=
  { r with name := n }

/-- `withMiddlewareGroups(name, middlewares)`: appends a named group. -/
def HttpRouting.withMiddlewareGroups (n : String) (ms : List Middleware)
    (r : HttpRouting) : HttpRouting :=
  { r with middlewareGroups := r.middlewareGroups ++ [⟨n, ms⟩] }

/-- `Path(value)` from `httpRouting.ts`: builds and returns a NEW
`HttpRouting` with the given pattern, no methods and the no-op handler
(`new HttpRouting(value, [], async () => {})`); the receiving entry is
left alone and its configuration is not carried over. -/
def HttpRouting.Path (value : RoutePattern) (_r : HttpRouting) :
    HttpRouting :=
  { path := value, methods := [], action := none }

/-- `hasPath(path)`: strip the query from the supplied path, then compare
with the literal pattern, or `test` the regex against it. -/
def HttpRouting.hasPath (r : HttpRouting) (p : List Char) : Bool :=
  let cleanPath := stripQuery p
  match r.path with
  | RoutePattern.str s => decide (s = cleanPath)
  | RoutePattern.regex re => (execSearch re cleanPath).isSome

/-- `hasMethod(verb)`: membership in the accepted-methods list. -/
def HttpRouting.hasMethod (r : HttpRouting) (verb : RequestMethod) : Bool :=
  decide (verb ∈ r.methods)

/-- `resolveMiddlewares(middlewares)` from `middleware.ts`: run the list
in order, awaiting each; `break` as soon as one returns
`MiddlewareState.Cancel` or anything that is not the `Next` sentinel.
The value is the ordered trace of the middleware actually invoked
(the one that halts the chain was itself invoked before the `break`). -/
def resolveMiddlewares : List Middleware → List Nat
  | [] => []
  | m :: rest =>
    if m.result = MwResult.cancel ∨ ¬ m.result = MwResult.next then [m.id]
    else m.id :: resolveMiddlewares rest

/-- `resolveMiddlewareGroups(middlewareGroups)`: resolve each group's
handler list in turn (a cancellation inside one group only breaks that
group's own list). -/
def resolveMiddlewareGroups : List MiddlewareGroups → List Nat
  | [] => []
  | g :: rest => resolveMiddlewares g.handlers ++ resolveMiddlewareGroups rest

/-- The parameter mapping `exec(...)?.groups` produces. -/
abbrev Params := List (String × List Char)

/-- The request view the dispatcher works with: `req.url` is the raw
request target (query string included, exactly what `HttpRequest.path()`
returns), and `parameters` is the store `exec(...)?.groups` is written to
(`none` models `undefined`; the initial value is the empty object). -/
structure HttpRequest where
  url : List Char
  method : RequestMethod
  parameters : Option Params := some []
deriving DecidableEq

/-- `HttpRequest.path()`: returns `this.req.url`, the raw target. -/
def HttpRequest.path (r : HttpRequest) : List Char := r.url

/-- What the dispatcher does for one matching route: the three middleware
phase traces (issued together through `Promise.all`, each phase resolving
its own list independently) and the terminal handler, which the `.then`
callback invokes once the three promises resolve. -/
structure Invocation where
  globalTrace : List Nat
  groupTrace : List Nat
  routeTrace : List Nat
  action : Option Nat
deriving DecidableEq

/-- The scan of `Application.match` / `handleHttpRequest`: walk the whole
registered-routes table in order, with the `is_match` flag and the
request's parameter store threaded through.  A non-matching entry sets
`is_match = false` and continues; a matching entry overwrites the
parameter store (for a regex pattern, with `exec(rawUrl)?.groups`), sets
`is_match = true`, and schedules its three middleware phases and its
handler.  Returns (invocations in scan order, final `is_match`, final
parameter store). -/
def matchLoop (globals : List Middleware) (req : HttpRequest) :
    List HttpRouting → Bool → Option Params →
      List Invocation × Bool × Option Params
  | [], is_match, params => ([], is_match, params)
  | route :: rest, _, params =>
    if route.hasPath req.path = false then
      matchLoop globals req rest false params
    else if route.hasMethod req.method = false then
      matchLoop globals req rest false params
    else
      let params' :=
        match route.path with
        | RoutePattern.str _ => params
        | RoutePattern.regex re =>
          (execSearch re req.path).map (fun g => [(re.groupName, g)])
      let inv : Invocation :=
        { globalTrace := resolveMiddlewares globals,
          groupTrace := resolveMiddlewareGroups route.middlewareGroups,
          routeTrace := resolveMiddlewares route.middleware,
          action := route.action }
      let tail := matchLoop globals req rest true params'
      (inv :: tail.1, tail.2)

/-- What one request produces: the invocations of the scan, the parameter
store after the scan, and whether the not-found fallback ran
(`match(...) === NOTFOUND && notFoundHandler !== undefined`, where
`match` returns `NOTFOUND` exactly when the final `is_match` is not
`true`). -/
structure RequestOutcome where
  invocations : List Invocation
  finalParams : Option Params
  fallbackInvoked : Bool
deriving DecidableEq

/-- One request through the dispatcher (`listenAndServe`'s loop body). -/
def handleRequest (globals : List Middleware) (routes : List HttpRouting)
    (notFoundHandler : Option Nat) (req : HttpRequest) : RequestOutcome :=
  let res := matchLoop globals req routes false req.parameters
  { invocations := res.1,
    finalParams := res.2.2,
    fallbackInvoked := !res.2.1 && notFoundHandler.isSome }

/-- `Application.listenAndServe`: throws `"Register at least one route."`
when no route is registered, before any server is created; otherwise
serves each incoming request through the dispatcher. -/
def listenAndServe (globals : List Middleware) (routes : List HttpRouting)
    (notFoundHandler : Option Nat) (incoming : List HttpRequest) :
    Except String (List RequestOutcome) :=
  if routes.length = 0 then Except.error "Register at least one route."
  else Except.ok (incoming.map (handleRequest globals routes notFoundHandler))

/-- The route `HandleFunc` pushes into `RegistredRoutes` in
`lib/httpRouting.ts`: `new HttpRouting("/default", [GET], async () => {})`. -/
def defaultRoute : HttpRouting :=
  { path := RoutePattern.str "/default".toList,
    methods := [RequestMethod.GET], action := none }

/-- `HandleFunc(handler)` of `lib/httpRouting.ts`: raise the capacity
error naming the configured limit when the registry already holds MORE
than `maxRoutes` entries, otherwise push the new route. -/
def HandleFunc (maxRoutes : Option Nat) (registry : List HttpRouting) :
    Except String (List HttpRouting) :=
  match maxRoutes with
  | some n =>
    if registry.length > n then
      Except.error ("Maximum allowed number of routes: " ++ toString n)
    else Except.ok (registry ++ [defaultRoute])
  | none => Except.ok (registry ++ [defaultRoute])

/-- `k` successive `HandleFunc` registrations starting from an empty
registry, stopping at the first error. -/
def registerTimes (maxRoutes : Option Nat) : Nat → Except String (List HttpRouting)
  | 0 => Except.ok []
  | Nat.succ k =>
    match registerTimes maxRoutes k with
    | Except.ok reg => HandleFunc maxRoutes reg
    | Except.error e => Except.error e

/-- The route of the C1 scenario: matches `GET /admin`, carries one
middleware group `["web" ↦ [middleware 1]]`, one per-route middleware
(2) and terminal handler 7. -/
def c1Route : HttpRouting :=
  { path := RoutePattern.str "/admin".toList,
    methods := [RequestMethod.GET], action := some 7,
    middleware := [{ id := 2, result := MwResult.next }],
    middlewareGroups :=
      [{ name := "web", handlers := [{ id := 1, result := MwResult.next }] }] }

/-- The request of the C1 scenario: `GET /admin`. -/
def c1Req : HttpRequest :=
  { url := "/admin".toList, method := RequestMethod.GET }

/-- C1: a globally registered middleware returning `Cancel` does NOT stop
the later phases.  With the single global middleware 0 returning
`Cancel`, dispatching `GET /admin` against `c1Route` still runs the
group middleware 1 (`groupTrace = [1]`), the per-route middleware 2
(`routeTrace = [2]`) and the terminal handler 7: the dispatcher starts
the three phase resolutions together through `Promise.all`, a
cancellation only breaks the list it occurs in, and the `.then` callback
invokes the handler unconditionally. -/
theorem c1_global_cancel_eval :
    handleRequest [{ id := 0, result := MwResult.cancel }] [c1Route] none c1Req
      = { invocations :=
            [{ globalTrace := [0], groupTrace := [1], routeTrace := [2],
               action := some 7 }],
          finalParams := some [], fallbackInvoked := false } := by
  rfl

/-- First route of the C2 scenario: `GET /a`, handler 4. -/
def c2RouteA : HttpRouting :=
  { path := RoutePattern.str "/a".toList,
    methods := [RequestMethod.GET], action := some 4 }

/-- Second route of the C2 scenario: `GET /b`, handler 5. -/
def c2RouteB : HttpRouting :=
  { path := RoutePattern.str "/b".toList,
    methods := [RequestMethod.GET], action := some 5 }

/-- The request of the C2 scenario: `GET /a`, which matches `c2RouteA`
but not `c2RouteB`. -/
def c2Req : HttpRequest :=
  { url := "/a".toList, method := RequestMethod.GET }

/-- C2: with registry `[/a, /b]`, a `notFoundHandler` configured and the
request `GET /a`, the matched handler 4 is invoked AND the fallback is
invoked as well: the scan resets `is_match` to `false` on every
non-matching entry, so after the loop the flag only reflects the last
entry (`/b`, which did not match). -/
theorem c2_fallback_despite_match_eval :
    handleRequest [] [c2RouteA, c2RouteB] (some 9) c2Req
      = { invocations :=
            [{ globalTrace := [], groupTrace := [], routeTrace := [],
               action := some 4 }],
          finalParams := some [], fallbackInvoked := true } := by
  rfl

/-- C4: with `maxRoutes = 1`, the second `HandleFunc` registration
SUCCEEDS (the guard checks `RegistredRoutes.length > maxRoutes` before
the push, so the registry reaches 2 entries); the capacity error naming
the limit is first raised at the third registration. -/
theorem c4_capacity_off_by_one_eval :
    registerTimes (some 1) 2 = Except.ok [defaultRoute, defaultRoute]
    ∧ registerTimes (some 1) 3
        = Except.error "Maximum allowed number of routes: 1" := by
  exact ⟨rfl, rfl⟩

/-- The configured route of the C9 counterexample: literal pattern
`/old`, method `POST`, handler 3, name `admin`, one per-route
middleware. -/
def c9Route : HttpRouting :=
  { path := RoutePattern.str "/old".toList,
    methods := [RequestMethod.POST], action := some 3, name := "admin",
    middleware := [{ id := 1, result := MwResult.next }] }

/-- C9 counterexample: calling the `Path` mutator on a configured entry
does NOT preserve the previously configured state — the returned entry
has empty methods, empty middleware and the anonymous default name,
while the receiver had `[POST]`, one middleware and the name `admin`. -/
theorem c9_path_discards_config_cex :
    (HttpRouting.Path (RoutePattern.str "/new".toList) c9Route).methods = []
    ∧ c9Route.methods = [RequestMethod.POST]
    ∧ (HttpRouting.Path (RoutePattern.str "/new".toList) c9Route).name
        = "<anonymous>"
    ∧ c9Route.name = "admin"
    ∧ (HttpRouting.Path (RoutePattern.str "/new".toList) c9Route).middleware = []
    ∧ c9Route.middleware = [{ id := 1, result := MwResult.next }]
    ∧ (HttpRouting.Path (RoutePattern.str "/new".toList) c9Route).action = none
    ∧ c9Route.action = some 3 := by
  exact ⟨rfl, rfl, rfl, rfl, rfl, rfl, rfl, rfl⟩

/-- C9 amended: `withName` and `withMiddleware` mutate and return the
same logical entry (every other field is preserved), while the `Path`
mutator instead returns a FRESH entry carrying only the new pattern,
with empty methods, empty middleware, empty groups, the no-op handler
and the anonymous default name — previously configured state is not
carried over. -/
theorem c9_builders_amended (r : HttpRouting) (v : RoutePattern)
    (n : String) (m : Middleware) :
    ((HttpRouting.Path v r).path = v
      ∧ (HttpRouting.Path v r).methods = []
      ∧ (HttpRouting.Path v r).middleware = []
      ∧ (HttpRouting.Path v r).middlewareGroups = []
      ∧ (HttpRouting.Path v r).name = "<anonymous>"
      ∧ (HttpRouting.Path v r).action = none)
    ∧ ((HttpRouting.withName n r).path = r.path
      ∧ (HttpRouting.withName n r).methods = r.methods
      ∧ (HttpRouting.withName n r).middleware = r.middleware
      ∧ (HttpRouting.withName n r).middlewareGroups = r.middlewareGroups
      ∧ (HttpRouting.withName n r).action = r.action
      ∧ (HttpRouting.withName n r).name = n)
    ∧ ((HttpRouting.withMiddleware m r).middleware = r.middleware ++ [m]
      ∧ (HttpRouting.withMiddleware m r).path = r.path
      ∧ (HttpRouting.withMiddleware m r).methods = r.methods
      ∧ (HttpRouting.withMiddleware m r).name = r.name
      ∧ (HttpRouting.withMiddleware m r).action = r.action) := by
  exact ⟨⟨rfl, rfl, rfl, rfl, rfl, rfl⟩, ⟨rfl, rfl, rfl, rfl, rfl, rfl⟩,
    ⟨rfl, rfl, rfl, rfl, rfl⟩⟩

/-- C10: starting the server with an empty route registry throws
`"Register at least one route."` before any listener is created, for
every set of global middleware, fallback configuration and incoming
traffic — and no request is handled (`listenAndServe` produces no
outcome). -/
theorem c10_empty_registry_rejected (globals : List Middleware)
    (notFoundHandler : Option Nat) (incoming : List HttpRequest) :
    listenAndServe globals [] notFoundHandler incoming
      = Except.error "Register at least one route." := by
  rfl

/-- How many times `HEAD` occurs in a methods list. -/
def countHEAD (l : List RequestMethod) : Nat :=
  (l.filter (fun m => decide (m = RequestMethod.HEAD))).length

/-- A sequence of `withMethods` calls applied to the fresh route
`Application.routes()` hands out. -/
def registerMethodCalls (calls : List (List RequestMethod)) : HttpRouting :=
  calls.foldl (fun r ms => HttpRouting.withMethods ms r) emptyRoute

theorem countHEAD_append (a b : List RequestMethod) :
    countHEAD (a ++ b) = countHEAD a + countHEAD b := by
  simp [countHEAD, List.filter_append]

theorem countHEAD_normMethods (ms : List RequestMethod) :
    countHEAD (normMethods ms)
      = countHEAD ms
        + (if RequestMethod.GET ∈ ms ∧ RequestMethod.HEAD ∉ ms then 1 else 0) := by
  by_cases h : RequestMethod.GET ∈ ms ∧ RequestMethod.HEAD ∉ ms
  · simp [normMethods, h, countHEAD_append, countHEAD]
  · simp [normMethods, h]

theorem countHEAD_fold (calls : List (List RequestMethod)) :
    ∀ r : HttpRouting,
    countHEAD ((calls.foldl (fun r ms => HttpRouting.withMethods ms r) r).methods)
      = countHEAD r.methods
        + (calls.map (fun c => countHEAD c
            + (if RequestMethod.GET ∈ c ∧ RequestMethod.HEAD ∉ c then 1 else 0))).sum := by
  induction calls with
  | nil => intro r; simp
  | cons c cs ih =>
    intro r
    simp only [List.foldl_cons, List.map_cons, List.sum_cons]
    rw [ih]
    simp only [HttpRouting.withMethods]
    rw [countHEAD_append, countHEAD_normMethods]
    omega

theorem head_mem_withMethods (ms : List RequestMethod) (r : HttpRouting)
    (h : RequestMethod.GET ∈ r.methods → RequestMethod.HEAD ∈ r.methods) :
    RequestMethod.GET ∈ (HttpRouting.withMethods ms r).methods →
    RequestMethod.HEAD ∈ (HttpRouting.withMethods ms r).methods := by
  simp only [HttpRouting.withMethods, List.mem_append]
  intro hg
  cases hg with
  | inl hg => exact Or.inl (h hg)
  | inr hg =>
    right
    by_cases hc : RequestMethod.GET ∈ ms ∧ RequestMethod.HEAD ∉ ms
    · simp [normMethods, hc]
    · simp only [normMethods, if_neg hc] at hg ⊢
      rcases Classical.em (RequestMethod.HEAD ∈ ms) with hh | hh
      · exact hh
      · exact absurd ⟨hg, hh⟩ hc

theorem head_mem_fold (calls : List (List RequestMethod)) :
    ∀ r : HttpRouting,
    (RequestMethod.GET ∈ r.methods → RequestMethod.HEAD ∈ r.methods) →
    RequestMethod.GET ∈
      ((calls.foldl (fun r ms => HttpRouting.withMethods ms r) r).methods) →
    RequestMethod.HEAD ∈
      ((calls.foldl (fun r ms => HttpRouting.withMethods ms r) r).methods) := by
  induction calls with
  | nil => intro r h; exact h
  | cons c cs ih =>
    intro r h
    exact ih (HttpRouting.withMethods c r) (head_mem_withMethods c r h)

/-- C3 counterexample: two successive `withMethods(GET)` calls on a fresh
route yield the methods list `[GET, HEAD, GET, HEAD]` — `HEAD` occurs
twice, because the auto-add check only inspects the arguments of the
current call, never the accumulated list. -/
theorem c3_head_duplicated_cex :
    (HttpRouting.withMethods [RequestMethod.GET]
        (HttpRouting.withMethods [RequestMethod.GET] emptyRoute)).methods
      = [RequestMethod.GET, RequestMethod.HEAD,
         RequestMethod.GET, RequestMethod.HEAD]
    ∧ countHEAD (HttpRouting.withMethods [RequestMethod.GET]
        (HttpRouting.withMethods [RequestMethod.GET] emptyRoute)).methods = 2 := by
  exact ⟨rfl, rfl⟩

/-- C3 amended: over any sequence of `withMethods` calls on a fresh
route, if the accepted-methods list contains `GET` it also contains
`HEAD`; but `HEAD` is NOT deduplicated across calls — it occurs once per
`HEAD` passed explicitly plus once per call whose arguments include
`GET` without `HEAD`, so repeated `withMethods(GET)` calls append `HEAD`
each time. -/
theorem c3_withMethods_head_amended (calls : List (List RequestMethod)) :
    (RequestMethod.GET ∈ (registerMethodCalls calls).methods →
      RequestMethod.HEAD ∈ (registerMethodCalls calls).methods)
    ∧ countHEAD (registerMethodCalls calls).methods
        = (calls.map (fun c => countHEAD c
            + (if RequestMethod.GET ∈ c ∧ RequestMethod.HEAD ∉ c then 1 else 0))).sum := by
  constructor
  · exact head_mem_fold calls emptyRoute (fun h => absurd h (by simp [emptyRoute]))
  · have h := countHEAD_fold calls emptyRoute
    simpa [registerMethodCalls, emptyRoute, countHEAD] using h

/-- C5: the dispatcher's scan never stops at the first match — its
invocation list is exactly the registration-order filter of the entries
whose path and method both match, each with its three middleware-phase
traces and its terminal handler (so when several entries match, each of
them runs). -/
theorem c5_dispatch_runs_all_matches (globals : List Middleware)
    (req : HttpRequest) (routes : List HttpRouting) (b : Bool)
    (params : Option Params) :
    (matchLoop globals req routes b params).1
      = (routes.filter
          (fun r => r.hasPath req.path && r.hasMethod req.method)).map
          (fun r =>
            { globalTrace := resolveMiddlewares globals,
              groupTrace := resolveMiddlewareGroups r.middlewareGroups,
              routeTrace := resolveMiddlewares r.middleware,
              action := r.action }) := by
  induction routes generalizing b params with
  | nil => rfl
  | cons r rest ih =>
    cases hp : r.hasPath req.path with
    | false => simp [matchLoop, hp, List.filter_cons, ih]
    | true =>
      cases hm : r.hasMethod req.method with
      | false => simp [matchLoop, hp, hm, List.filter_cons, ih]
      | true => simp [matchLoop, hp, hm, List.filter_cons, ih]

theorem resolveMiddlewares_all_next :
    ∀ l : List Middleware, (∀ x ∈ l, x.result = MwResult.next) →
    resolveMiddlewares l = l.map Middleware.id
  | [], _ => rfl
  | m :: rest, h => by
    have hm : m.result = MwResult.next := h m (List.mem_cons_self m rest)
    have ih := resolveMiddlewares_all_next rest
      (fun x hx => h x (List.mem_cons_of_mem m hx))
    simp [resolveMiddlewares, hm, ih]

theorem resolveMiddlewares_halts :
    ∀ (l₁ : List Middleware) (m : Middleware) (l₂ : List Middleware),
    (∀ x ∈ l₁, x.result = MwResult.next) → ¬ m.result = MwResult.next →
    resolveMiddlewares (l₁ ++ m :: l₂) = l₁.map Middleware.id ++ [m.id]
  | [], m, l₂, _, h₂ => by simp [resolveMiddlewares, h₂]
  | x :: xs, m, l₂, h₁, h₂ => by
    have hx : x.result = MwResult.next := h₁ x (List.mem_cons_self x xs)
    have ih := resolveMiddlewares_halts xs m l₂
      (fun y hy => h₁ y (List.mem_cons_of_mem x hy)) h₂
    simp [resolveMiddlewares, hx, ih]

/-- C8: per-route middleware `[A, B, C]` added in that order by
`withMiddleware` is stored in that order, and the resolver invokes
exactly `A, B, C` in list order when each returns the `Next` sentinel
(within a phase each middleware is awaited before the following one
starts); moreover the first middleware of a list returning anything
other than the explicit `Next` sentinel is the last one invoked — the
remainder of that list never runs. -/
theorem c8_middleware_order (r : HttpRouting) (A B C : Middleware)
    (hA : A.result = MwResult.next) (hB : B.result = MwResult.next)
    (hC : C.result = MwResult.next) :
    ((HttpRouting.withMiddleware C (HttpRouting.withMiddleware B
        (HttpRouting.withMiddleware A r))).middleware
      = r.middleware ++ [A, B, C]
    ∧ resolveMiddlewares [A, B, C] = [A.id, B.id, C.id])
    ∧ ∀ (l₁ : List Middleware) (m : Middleware) (l₂ : List Middleware),
        (∀ x ∈ l₁, x.result = MwResult.next) → ¬ m.result = MwResult.next →
        resolveMiddlewares (l₁ ++ m :: l₂) = l₁.map Middleware.id ++ [m.id] := by
  refine ⟨⟨?_, ?_⟩, ?_⟩
  · simp [HttpRouting.withMiddleware]
  · simp [resolveMiddlewares, hA, hB, hC]
  · exact fun l₁ m l₂ h₁ h₂ => resolveMiddlewares_halts l₁ m l₂ h₁ h₂

/-- C8 at a concrete input: middleware 1, 2, 3 all returning `Next` run
in exactly that order; with middleware 9 returning `Cancel` in second
position, only `[1, 9]` run and the rest of the list is skipped. -/
theorem c8_middleware_order_witness :
    resolveMiddlewares
        [{ id := 1, result := MwResult.next }, { id := 2, result := MwResult.next },
         { id := 3, result := MwResult.next }]
      = [1, 2, 3]
    ∧ resolveMiddlewares
        [{ id := 1, result := MwResult.next }, { id := 9, result := MwResult.cancel },
         { id := 4, result := MwResult.next }]
      = [1, 9] := by
  have h := c8_middleware_order emptyRoute
    { id := 1, result := MwResult.next } { id := 2, result := MwResult.next }
    { id := 3, result := MwResult.next } rfl rfl rfl
  exact ⟨h.1.2,
    h.2 [{ id := 1, result := MwResult.next }] { id := 9, result := MwResult.cancel }
      [{ id := 4, result := MwResult.next }] (by decide) (by decide)⟩

/-- Modelled from the spec's words for C6: "the path with its
query-string suffix stripped (everything from the first `'?'` onward
discarded)". -/
def specClaimStrip (s : List Char) : List Char :=
  s.takeWhile (fun c => decide (¬ c = '?'))

/-- Independent characterisation of what `replace(/\?.+/i, "")` does to a
line-terminator-free path: the prefix before the first `'?'` when that
`'?'` is followed by at least one character (i.e. a `'?'` occurs before
the last position), the path unchanged otherwise. -/
def stripQueryAlt (s : List Char) : List Char :=
  if '?' ∈ s.dropLast then s.takeWhile (fun c => decide (¬ c = '?')) else s

theorem takeWhile_isRegexDot_eq_self (t : List Char)
    (h : ∀ c ∈ t, isRegexDot c = true) :
    t.takeWhile isRegexDot = t :=
  List.takeWhile_eq_self_iff.mpr h

theorem stripQuery_eq_alt :
    ∀ s : List Char, (∀ c ∈ s, isRegexDot c = true) →
    stripQuery s = stripQueryAlt s
  | [], _ => rfl
  | c :: t, h => by
    have ih := stripQuery_eq_alt t (fun a ha => h a (List.mem_cons_of_mem c ha))
    by_cases hq : c = '?'
    · subst hq
      cases t with
      | nil => decide
      | cons d t' =>
        have hd : isRegexDot d = true := h d (by simp)
        have htw : (d :: t').takeWhile isRegexDot = d :: t' :=
          takeWhile_isRegexDot_eq_self (d :: t')
            (fun a ha => h a (List.mem_cons_of_mem _ ha))
        have h1 : stripQuery ('?' :: d :: t') = [] := by
          simp [stripQuery, hd, htw]
        have h2 : stripQueryAlt ('?' :: d :: t') = [] := by
          have hmem : '?' ∈ ('?' :: d :: t').dropLast := by
            simp [List.dropLast]
          simp [stripQueryAlt, hmem]
        rw [h1, h2]
    · have hstrip : stripQuery (c :: t) = c :: stripQuery t := by
        simp [stripQuery, hq]
      cases t with
      | nil =>
        simp [stripQuery, hq, stripQueryAlt, List.dropLast]
      | cons d t' =>
        rw [hstrip, ih]
        have hdl : (c :: d :: t').dropLast = c :: (d :: t').dropLast := by
          simp [List.dropLast]
        by_cases hm : '?' ∈ (d :: t').dropLast
        · have hmem : '?' ∈ (c :: d :: t').dropLast := by
            rw [hdl]; exact List.mem_cons_of_mem c hm
          simp only [stripQueryAlt]
          rw [if_pos hm, if_pos hmem, List.takeWhile_cons]
          simp only [decide_not]
          rw [List.takeWhile_cons]
          by_cases hd2 : d = '?' <;> simp [hq, hd2]
        · have hmem : '?' ∉ (c :: d :: t').dropLast := by
            rw [hdl]
            intro hx
            rcases List.mem_cons.mp hx with hx | hx
            · exact hq hx.symm
            · exact hm hx
          simp only [stripQueryAlt]
          rw [if_neg hm, if_neg hmem]

/-- C6 counterexample: pattern `"/foo"`, request path `"/foo?"`.  The
claim's stripping rule discards everything from the first `'?'` onward,
giving exactly the pattern `"/foo"`, so the claim says `hasPath` is
true; but `replace(/\?.+/i, "")` needs at least one character after the
`'?'`, leaves `"/foo?"` untouched, and `hasPath` is false. -/
theorem c6_bare_question_mark_cex :
    (mkStrRoute "/foo".toList).hasPath "/foo?".toList = false
    ∧ specClaimStrip "/foo?".toList = "/foo".toList := by
  decide

/-- C6 amended: for a literal-string pattern and a request path free of
line terminators, `hasPath` is true iff the stripped path equals the
pattern — where stripping removes the first `'?'` and everything after
it only when at least one character follows that `'?'`; a path whose
only `'?'` is its final character is NOT stripped.  (Text after the
first `'?'` therefore never affects the result, but a bare trailing
`'?'` does.) -/
theorem c6_hasPath_literal_amended (pat path : List Char)
    (h : ∀ c ∈ path, isRegexDot c = true) :
    (mkStrRoute pat).hasPath path = true ↔ stripQueryAlt path = pat := by
  have hs : stripQuery path = stripQueryAlt path := stripQuery_eq_alt path h
  constructor
  · intro hp
    have : pat = stripQuery path := by
      simpa [HttpRouting.hasPath, mkStrRoute] using hp
    rw [← hs, ← this]
  · intro hp
    simp [HttpRouting.hasPath, mkStrRoute, hs, hp]

/-- C6 amended, applied at the concrete input `pat = "/foo"`,
`path = "/foo?a=1"`: the hypothesis holds and both sides of the
equivalence are true — the query string is stripped and the route
matches. -/
theorem c6_hasPath_literal_amended_witness :
    (mkStrRoute "/foo".toList).hasPath "/foo?a=1".toList = true
    ∧ stripQueryAlt "/foo?a=1".toList = "/foo".toList := by
  have h := c6_hasPath_literal_amended "/foo".toList "/foo?a=1".toList
    (by decide)
  exact ⟨h.mpr (by decide), by decide⟩

theorem stripQuery_no_question :
    ∀ s : List Char, '?' ∉ s → stripQuery s = s
  | [], _ => rfl
  | c :: t, h => by
    have hc : ¬ c = '?' := by
      intro hx; exact h (by simp [hx])
    have ht : '?' ∉ t := fun hx => h (List.mem_cons_of_mem c hx)
    simp [stripQuery, hc, stripQuery_no_question t ht]

theorem matchAt_some (r : NamedGroupRegex) (s v : List Char)
    (h : matchAt r s = some v) :
    v ≠ [] ∧ v.all r.cls = true ∧ ∃ pre post, pre ++ v ++ post = s := by
  simp only [matchAt] at h
  split at h
  · rename_i hlit
    split at h
    · split at h
      · rename_i hg
        have hv : s.drop r.lit.length = v := Option.some.inj h
        refine ⟨hv ▸ hg.1, hv ▸ hg.2, s.take r.lit.length, [], ?_⟩
        rw [List.append_nil, ← hv]
        exact List.take_append_drop _ s
      · exact absurd h (by simp)
    · split at h
      · rename_i hrun
        have hv : (s.drop r.lit.length).takeWhile r.cls = v := Option.some.inj h
        refine ⟨hv ▸ hrun, ?_,
          s.take r.lit.length, (s.drop r.lit.length).dropWhile r.cls, ?_⟩
        · rw [← hv]
          simp only [List.all_eq_true]
          exact fun x hx => List.mem_takeWhile_imp hx
        · rw [← hv, List.append_assoc, List.takeWhile_append_dropWhile]
          exact List.take_append_drop _ s
      · exact absurd h (by simp)
  · exact absurd h (by simp)

theorem execSearch_some (r : NamedGroupRegex) :
    ∀ s v : List Char, execSearch r s = some v →
    v ≠ [] ∧ v.all r.cls = true ∧ ∃ pre post, pre ++ v ++ post = s
  | [], v, h => matchAt_some r [] v h
  | c :: t, v, h => by
    cases hm : matchAt r (c :: t) with
    | some g =>
      have hv : some g = some v := by rw [← h]; simp [execSearch, hm]
      exact matchAt_some r (c :: t) v (by rw [hm]; exact hv)
    | none =>
      have ht : execSearch r t = some v := by rw [← h]; simp [execSearch, hm]
      obtain ⟨h1, h2, pre, post, h3⟩ := execSearch_some r t v ht
      exact ⟨h1, h2, c :: pre, post, congrArg (List.cons c) h3⟩

/-- The C7 counterexample's pattern: `/\/user\/(?<id>[0-9]+)$/`
(end-anchored, one named group `id` over digits). -/
def c7AnchoredRegex : NamedGroupRegex :=
  { lit := "/user/".toList, groupName := "id", cls := Char.isDigit,
    anchorEnd := true }

/-- The C7 counterexample's route: the anchored pattern, `GET`,
handler 5. -/
def c7Route : HttpRouting :=
  { path := RoutePattern.regex c7AnchoredRegex,
    methods := [RequestMethod.GET], action := some 5 }

/-- The C7 counterexample's request: `GET /user/42?x=1`. -/
def c7Req : HttpRequest :=
  { url := "/user/42?x=1".toList, method := RequestMethod.GET }

/-- C7 counterexample: route pattern `/\/user\/(?<id>[0-9]+)$/`, request
`GET /user/42?x=1`.  `hasPath` tests the query-stripped path `/user/42`
and matches, so the route's handler is invoked; but the parameter
binding re-executes the pattern against the RAW url `/user/42?x=1`,
which the anchored pattern does not match, so the store is set to
`undefined` — it contains no key `id`, contradicting the claim. -/
theorem c7_anchored_query_cex :
    (handleRequest [] [c7Route] none c7Req).invocations.map Invocation.action
      = [some 5]
    ∧ (handleRequest [] [c7Route] none c7Req).finalParams = none := by
  exact ⟨rfl, rfl⟩

/-- C7 amended: a request whose path does not match (`hasPath` false) is
skipped — no middleware, no handler, parameter store untouched.  A
matching request binds the store to `exec(rawUrl)?.groups`, i.e. the
pattern is re-executed against the FULL request target rather than the
stripped path; when the request carries no query string this mapping
contains the named group with the captured substring of the path (the
claim's behaviour), but with a query string present the raw-url
execution may fail (e.g. an end-anchored pattern) and the store is then
set to `undefined` while the handler still runs. -/
theorem c7_params_amended (re : NamedGroupRegex) (ms : List RequestMethod)
    (a : Option Nat) (nm : String) (mw : List Middleware)
    (gs : List MiddlewareGroups) (globals : List Middleware)
    (nf : Option Nat) (req : HttpRequest) :
    ((mkRegexRoute re ms a nm mw gs).hasPath req.path = false →
      handleRequest globals [mkRegexRoute re ms a nm mw gs] nf req
        = { invocations := [], finalParams := req.parameters,
            fallbackInvoked := nf.isSome })
    ∧ ((mkRegexRoute re ms a nm mw gs).hasPath req.path = true →
       (mkRegexRoute re ms a nm mw gs).hasMethod req.method = true →
       '?' ∉ req.path →
       ∃ v, v ≠ [] ∧ v.all re.cls = true
         ∧ (∃ pre post, pre ++ v ++ post = req.path)
         ∧ (handleRequest globals [mkRegexRoute re ms a nm mw gs] nf req).finalParams
             = some [(re.groupName, v)]
         ∧ (handleRequest globals [mkRegexRoute re ms a nm mw gs] nf req).invocations
             = [{ globalTrace := resolveMiddlewares globals,
                  groupTrace := resolveMiddlewareGroups gs,
                  routeTrace := resolveMiddlewares mw, action := a }]) := by
  constructor
  · intro hp
    simp [handleRequest, matchLoop, hp]
  · intro hp hm hq
    simp only [mkRegexRoute] at hp hm
    have hsq : stripQuery req.path = req.path :=
      stripQuery_no_question req.path hq
    have hex : (execSearch re req.path).isSome = true := by
      have h' := hp
      simp only [HttpRouting.hasPath, hsq] at h'
      exact h'
    obtain ⟨g, hg⟩ := Option.isSome_iff_exists.mp hex
    obtain ⟨h1, h2, pre, post, h3⟩ := execSearch_some re req.path g hg
    refine ⟨g, h1, h2, ⟨pre, post, h3⟩, ?_, ?_⟩
    · simp [handleRequest, matchLoop, mkRegexRoute, hp, hm, hg]
    · simp [handleRequest, matchLoop, mkRegexRoute, hp, hm]

/-- The witness pattern for C7's amended statement:
`/\/user\/(?<id>[0-9]+)/` (no anchor). -/
def c7OpenRegex : NamedGroupRegex :=
  { lit := "/user/".toList, groupName := "id", cls := Char.isDigit,
    anchorEnd := false }

/-- The witness request for C7's amended statement: `GET /user/42`,
no query string. -/
def c7OkReq : HttpRequest :=
  { url := "/user/42".toList, method := RequestMethod.GET }

/-- C7 amended, applied at the concrete input `GET /user/42` against the
unanchored digits pattern: some captured substring `v` is bound under
key `id` and the route's handler (11) is invoked. -/
theorem c7_params_amended_witness :
    ∃ v, v ≠ [] ∧ v.all c7OpenRegex.cls = true
      ∧ (∃ pre post, pre ++ v ++ post = c7OkReq.path)
      ∧ (handleRequest [] [mkRegexRoute c7OpenRegex [RequestMethod.GET]
            (some 11) "<anonymous>" [] []] none c7OkReq).finalParams
          = some [(c7OpenRegex.groupName, v)]
      ∧ (handleRequest [] [mkRegexRoute c7OpenRegex [RequestMethod.GET]
            (some 11) "<anonymous>" [] []] none c7OkReq).invocations
          = [{ globalTrace := resolveMiddlewares [],
               groupTrace := resolveMiddlewareGroups [],
               routeTrace := resolveMiddlewares [], action := some 11 }] :=
  (c7_params_amended c7OpenRegex [RequestMethod.GET] (some 11) "<anonymous>"
      [] [] [] none c7OkReq).2 (by decide) (by decide) (by decide)

end Dragon
